import Mathlib

/-!
Verification of the synthetic table generator and summarizer of the
Lammps repository (notebook `testss.ipynb`).

The notebook builds a random `atoms` table, placeholder `bonds`, `angles`
and `dihedrals` tables, and runs column max/min and shape queries on the
atoms table.  We embed the notebook's computations shallowly: the numpy
random draw becomes an explicit parameter `r : ℕ → ℕ → ℚ` (row, column),
numpy float32 values become rational numbers (keeping every definition
executable), and a polars data frame becomes a `Table` of named columns
over rows of rationals.
-/

namespace Lammps

/-- A data frame: a list of column names and a list of rows. -/
structure Table where
  header : List String
  rows : List (List ℚ)

/-- `atoms.to_numpy().shape`: row count then column count. -/
def shape (t : Table) : ℕ × ℕ := (t.rows.length, t.header.length)

/-- The coordinate transform of cell value `v`:
`atoms = atoms*120-60` followed by `atoms = atoms**2/10`. -/
def coordTransform (v : ℚ) : ℚ := (v * 120 - 60) ^ 2 / 10

/-- The `atom-type` value of row `i` (0-based) of a table of `count` rows,
after the three sequential writes `atoms[:,1] = 1`, `atoms[:100,1] = 2`,
`atoms[-100:,1] = 3`.  The last write wins, so a row in the final
100-row band (`count - 100 ≤ i`, with numpy's clamping of the negative
slice mirrored by truncated subtraction) holds 3, otherwise a row among
the first 100 holds 2, and any other row keeps the default 1. -/
def atomType (count i : ℕ) : ℚ :=
  if count - 100 ≤ i then 3 else if i < 100 then 2 else 1

/-- Row `i` (0-based) of the atoms array after all cell writes:
`atoms[:,0] = arange(len(atoms))+1`, the type writes on column 1,
`atoms[:,2] = atoms[:,1]`, and the coordinate transform surviving in
columns 3, 4, 5 applied to the random draws of those cells. -/
def atomRow (count : ℕ) (r : ℕ → ℕ → ℚ) (i : ℕ) : List ℚ :=
  [(i : ℚ) + 1, atomType count i, atomType count i,
   coordTransform (r i 3), coordTransform (r i 4), coordTransform (r i 5)]

/-- The atoms table: `np.random.rand(count,6)` transformed and relabeled as
in cell 1, wrapped as `pl.DataFrame(atoms, schema=[...])`. -/
def generate_atoms (count : ℕ) (r : ℕ → ℕ → ℚ) : Table :=
  ⟨["atom-id", "atom-type", "mol-type", "x-coor", "y-coor", "z-coor"],
   (List.range count).map (atomRow count r)⟩

/-- `np.ones([count, width])`: `count` rows of `width` ones. -/
def onesMatrix (count width : ℕ) : List (List ℚ) :=
  (List.range count).map (fun _ => List.replicate width 1)

/-- `m[:,0] = np.arange(len(m))+1`: overwrite the first cell of row `i`
with `i+1`. -/
def setIds (m : List (List ℚ)) : List (List ℚ) :=
  (List.range m.length).map (fun i => (m.getD i []).set 0 ((i : ℚ) + 1))

/-- `bonds = np.ones([size,4])` followed by `bonds[:,0] = arange+1`. -/
def bonds (count : ℕ) : List (List ℚ) := setIds (onesMatrix count 4)

/-- `angles = np.ones([size,5])` followed by `angles[:,0] = arange+1`. -/
def angles (count : ℕ) : List (List ℚ) := setIds (onesMatrix count 5)

/-- `dihedrals = np.ones([size,6])`.  The notebook never writes
`dihedrals[:,0]`, so the dihedrals table keeps all cells equal to 1. -/
def dihedrals (count : ℕ) : List (List ℚ) := onesMatrix count 6

/-- Modelled from the spec: `generate_placeholder_table(count, width)`,
the generator the spec abstracts from the bonds/angles/dihedrals
construction — a ones matrix whose first column is overwritten with the
sequence 1..count. -/
def generate_placeholder_table (count width : ℕ) : List (List ℚ) :=
  setIds (onesMatrix count width)

/-- Column lookup: `some` of the column of cell values when the name
exists in the header, `none` (polars' ColumnNotFound) otherwise. -/
def getColumn (t : Table) (n : String) : Option (List ℚ) :=
  if n ∈ t.header then
    some (t.rows.map (fun row => row.getD (t.header.indexOf n) 0))
  else none

/-- Aggregate a nonempty column to its maximum; a column with no rows has
no maximum (polars yields null there). -/
def colMaxVal : List ℚ → Option ℚ
  | [] => none
  | x :: xs => some (xs.foldl max x)

/-- Aggregate a nonempty column to its minimum. -/
def colMinVal : List ℚ → Option ℚ
  | [] => none
  | x :: xs => some (xs.foldl min x)

/-- `table.select(names).max()`: one maximum per requested column, in
request order; `none` as soon as any requested name is absent. -/
def column_max (t : Table) : List String → Option (List ℚ)
  | [] => some []
  | n :: ns =>
    ((getColumn t n).bind colMaxVal).bind fun v =>
      (column_max t ns).bind fun vs => some (v :: vs)

/-- `table.select(names).min()`: one minimum per requested column, in
request order; `none` as soon as any requested name is absent. -/
def column_min (t : Table) : List String → Option (List ℚ)
  | [] => some []
  | n :: ns =>
    ((getColumn t n).bind colMinVal).bind fun v =>
      (column_min t ns).bind fun vs => some (v :: vs)

/-! ### Helper lemmas -/

lemma getD_range_map {α : Type} (f : ℕ → α) (n i : ℕ) (d : α) (h : i < n) :
    ((List.range n).map f).getD i d = f i := by
  rw [List.getD_eq_getElem?_getD, List.getElem?_map, List.getElem?_range h]
  rfl

lemma generate_atoms_rows_getD (count : ℕ) (r : ℕ → ℕ → ℚ) (i : ℕ)
    (h : i < count) :
    (generate_atoms count r).rows.getD i [] = atomRow count r i := by
  simp only [generate_atoms]
  exact getD_range_map _ _ _ _ h

lemma atomRow_getD_one (count : ℕ) (r : ℕ → ℕ → ℚ) (i : ℕ) :
    (atomRow count r i).getD 1 0 = atomType count i := rfl

lemma atomRow_getD_two (count : ℕ) (r : ℕ → ℕ → ℚ) (i : ℕ) :
    (atomRow count r i).getD 2 0 = atomType count i := rfl

lemma coordTransform_nonneg (v : ℚ) : 0 ≤ coordTransform v := by
  unfold coordTransform
  positivity

lemma coordTransform_le_360 (v : ℚ) (h0 : 0 ≤ v) (h1 : v < 1) :
    coordTransform v ≤ 360 := by
  unfold coordTransform
  nlinarith [mul_nonneg h0 (by linarith : (0:ℚ) ≤ 1 - v)]

/-! ### Theorems about the atoms table -/

/-- C1: for every `count ≥ 200` (and any sequence of random draws),
`generate_atoms count` is a table of exactly `count` rows and 6 columns
whose `atom-id` column is the sequence `1, 2, ..., count` in row order. -/
theorem generate_atoms_shape_and_id (count : ℕ) (r : ℕ → ℕ → ℚ)
    (h : 200 ≤ count) :
    shape (generate_atoms count r) = (count, 6) ∧
    (generate_atoms count r).rows.map (fun row => row.getD 0 0)
      = (List.range count).map (fun (i : ℕ) => (i : ℚ) + 1) := by
  constructor
  · simp [shape, generate_atoms]
  · simp only [generate_atoms, List.map_map]
    rfl

theorem generate_atoms_shape_and_id_witness :
    200 ≤ 200 ∧
    (shape (generate_atoms 200 (fun _ _ => 0)) = (200, 6) ∧
     (generate_atoms 200 (fun _ _ => 0)).rows.map (fun row => row.getD 0 0)
       = (List.range 200).map (fun (i : ℕ) => (i : ℚ) + 1)) :=
  ⟨by norm_num, generate_atoms_shape_and_id 200 (fun _ _ => 0) (by norm_num)⟩

/-- C3: for every `count ≥ 200`, the `atom-type` column holds 2 in each of
the first 100 rows, 3 in each of the last 100 rows, and 1 elsewhere. -/
theorem generate_atoms_type_bands (count : ℕ) (r : ℕ → ℕ → ℚ)
    (h : 200 ≤ count) :
    (∀ i, i < 100 →
      ((generate_atoms count r).rows.getD i []).getD 1 0 = 2) ∧
    (∀ i, i < count → count ≤ i + 100 →
      ((generate_atoms count r).rows.getD i []).getD 1 0 = 3) ∧
    (∀ i, 100 ≤ i → i + 100 < count →
      ((generate_atoms count r).rows.getD i []).getD 1 0 = 1) := by
  refine ⟨fun i hi => ?_, fun i hi hband => ?_, fun i hlo hhi => ?_⟩
  · rw [generate_atoms_rows_getD count r i (by omega), atomRow_getD_one]
    have h1 : ¬ (count - 100 ≤ i) := by omega
    simp [atomType, h1, hi]
  · rw [generate_atoms_rows_getD count r i hi, atomRow_getD_one]
    have h1 : count - 100 ≤ i := by omega
    simp [atomType, h1]
  · rw [generate_atoms_rows_getD count r i (by omega), atomRow_getD_one]
    have h1 : ¬ (count - 100 ≤ i) := by omega
    have h2 : ¬ (i < 100) := by omega
    simp [atomType, h1, h2]

theorem generate_atoms_type_bands_witness :
    200 ≤ 250 ∧
    ((∀ i, i < 100 →
       ((generate_atoms 250 (fun _ _ => 0)).rows.getD i []).getD 1 0 = 2) ∧
     (∀ i, i < 250 → 250 ≤ i + 100 →
       ((generate_atoms 250 (fun _ _ => 0)).rows.getD i []).getD 1 0 = 3) ∧
     (∀ i, 100 ≤ i → i + 100 < 250 →
       ((generate_atoms 250 (fun _ _ => 0)).rows.getD i []).getD 1 0 = 1)) :=
  ⟨by norm_num, generate_atoms_type_bands 250 (fun _ _ => 0) (by norm_num)⟩

/-- C8: in every row of `generate_atoms count` the `mol-type` cell equals
the `atom-type` cell (`atoms[:,2] = atoms[:,1]`). -/
theorem mol_type_mirrors_atom_type (count : ℕ) (r : ℕ → ℕ → ℚ)
    (hc : 1 ≤ count) (i : ℕ) (hi : i < count) :
    ((generate_atoms count r).rows.getD i []).getD 2 0
      = ((generate_atoms count r).rows.getD i []).getD 1 0 := by
  rw [generate_atoms_rows_getD count r i hi, atomRow_getD_one, atomRow_getD_two]

theorem mol_type_mirrors_atom_type_witness :
    1 ≤ 1 ∧ 0 < 1 ∧
    ((generate_atoms 1 (fun _ _ => 0)).rows.getD 0 []).getD 2 0
      = ((generate_atoms 1 (fun _ _ => 0)).rows.getD 0 []).getD 1 0 :=
  ⟨le_refl 1, Nat.zero_lt_one,
   mol_type_mirrors_atom_type 1 (fun _ _ => 0) (le_refl 1) 0 Nat.zero_lt_one⟩

/-- C10: for `count < 200` the two 100-row type bands may overlap; the
write of 3 comes last and wins, so every row in the overlap holds type 3,
and for `count ≤ 100` every row holds type 3. -/
theorem overlap_band_wins (count : ℕ) (r : ℕ → ℕ → ℚ) (h : count < 200) :
    (∀ i, i < count → count ≤ i + 100 → i < 100 →
      ((generate_atoms count r).rows.getD i []).getD 1 0 = 3) ∧
    (count ≤ 100 → ∀ i, i < count →
      ((generate_atoms count r).rows.getD i []).getD 1 0 = 3) := by
  constructor
  · intro i hi hband _
    rw [generate_atoms_rows_getD count r i hi, atomRow_getD_one]
    have h1 : count - 100 ≤ i := by omega
    simp [atomType, h1]
  · intro hsmall i hi
    rw [generate_atoms_rows_getD count r i hi, atomRow_getD_one]
    have h1 : count - 100 ≤ i := by omega
    simp [atomType, h1]

/-- C6: with every random draw in `[0,1)`, each cell of the three
coordinate columns (columns 3, 4, 5) equals `(v*120-60)^2/10` for some
draw `v` in `[0,1)`. -/
theorem coords_are_transform_of_draws (count : ℕ) (r : ℕ → ℕ → ℚ)
    (hc : 1 ≤ count) (hr : ∀ i j, 0 ≤ r i j ∧ r i j < 1) :
    ∀ i j, i < count → 3 ≤ j → j < 6 →
      ∃ v, 0 ≤ v ∧ v < 1 ∧
        ((generate_atoms count r).rows.getD i []).getD j 0
          = (v * 120 - 60) ^ 2 / 10 := by
  intro i j hi hj3 hj6
  rw [generate_atoms_rows_getD count r i hi]
  interval_cases j
  · exact ⟨r i 3, (hr i 3).1, (hr i 3).2, rfl⟩
  · exact ⟨r i 4, (hr i 4).1, (hr i 4).2, rfl⟩
  · exact ⟨r i 5, (hr i 5).1, (hr i 5).2, rfl⟩

theorem coords_are_transform_of_draws_witness :
    1 ≤ 1 ∧ (∀ i j : ℕ, (0:ℚ) ≤ 0 ∧ (0:ℚ) < 1) ∧
    (∀ i j, i < 1 → 3 ≤ j → j < 6 →
      ∃ v, 0 ≤ v ∧ v < 1 ∧
        ((generate_atoms 1 (fun _ _ => 0)).rows.getD i []).getD j 0
          = (v * 120 - 60) ^ 2 / 10) :=
  ⟨le_refl 1, fun _ _ => ⟨le_refl 0, by norm_num⟩,
   coords_are_transform_of_draws 1 (fun _ _ => 0) (le_refl 1)
     (fun _ _ => ⟨le_refl 0, by norm_num⟩)⟩

/-- C7: every cell of the three coordinate columns of `generate_atoms` is
nonnegative (the transform squares, so its sign is gone). -/
theorem coords_nonneg (count : ℕ) (r : ℕ → ℕ → ℚ) (hc : 1 ≤ count) :
    ∀ i j, i < count → 3 ≤ j → j < 6 →
      0 ≤ ((generate_atoms count r).rows.getD i []).getD j 0 := by
  intro i j hi hj3 hj6
  rw [generate_atoms_rows_getD count r i hi]
  interval_cases j <;>
  · show (0:ℚ) ≤ coordTransform _
    unfold coordTransform
    positivity

theorem coords_nonneg_witness :
    1 ≤ 1 ∧
    (∀ i j, i < 1 → 3 ≤ j → j < 6 →
      0 ≤ ((generate_atoms 1 (fun _ _ => 0)).rows.getD i []).getD j 0) :=
  ⟨le_refl 1, coords_nonneg 1 (fun _ _ => 0) (le_refl 1)⟩

/-- C9 is refuted: a draw of exactly 0 is inside `[0,1)`, yet it produces
the coordinate `((0*120-60)^2)/10 = 360`, which is not strictly below
360.  Here every draw is the constant 0. -/
theorem coords_lt_360_refuted :
    (0:ℚ) ≤ 0 ∧ (0:ℚ) < 1 ∧
    ((generate_atoms 1 (fun _ _ => 0)).rows.getD 0 []).getD 3 0 = 360 ∧
    ¬ ((generate_atoms 1 (fun _ _ => 0)).rows.getD 0 []).getD 3 0 < 360 := by
  have hval :
      ((generate_atoms 1 (fun _ _ => 0)).rows.getD 0 []).getD 3 0 = 360 := by
    rw [generate_atoms_rows_getD 1 (fun _ _ => 0) 0 (by norm_num)]
    show coordTransform 0 = 360
    unfold coordTransform
    norm_num
  exact ⟨le_refl 0, by norm_num, hval, by rw [hval]; exact lt_irrefl 360⟩

/-- C9 amended: with every draw in `[0,1)`, each coordinate cell lies in
the closed interval `[0, 360]`; the bound 360 is attained exactly when the
draw is 0 (see `coords_lt_360_refuted`). -/
theorem coords_le_360 (count : ℕ) (r : ℕ → ℕ → ℚ)
    (hc : 1 ≤ count) (hr : ∀ i j, 0 ≤ r i j ∧ r i j < 1) :
    ∀ i j, i < count → 3 ≤ j → j < 6 →
      0 ≤ ((generate_atoms count r).rows.getD i []).getD j 0 ∧
      ((generate_atoms count r).rows.getD i []).getD j 0 ≤ 360 := by
  intro i j hi hj3 hj6
  rw [generate_atoms_rows_getD count r i hi]
  interval_cases j
  · exact ⟨coordTransform_nonneg (r i 3),
      coordTransform_le_360 (r i 3) (hr i 3).1 (hr i 3).2⟩
  · exact ⟨coordTransform_nonneg (r i 4),
      coordTransform_le_360 (r i 4) (hr i 4).1 (hr i 4).2⟩
  · exact ⟨coordTransform_nonneg (r i 5),
      coordTransform_le_360 (r i 5) (hr i 5).1 (hr i 5).2⟩

theorem coords_le_360_witness :
    1 ≤ 1 ∧ ((0:ℚ) ≤ (1:ℚ)/2 ∧ (1:ℚ)/2 < 1) ∧
    (∀ i j, i < 1 → 3 ≤ j → j < 6 →
      0 ≤ ((generate_atoms 1 (fun _ _ => 1/2)).rows.getD i []).getD j 0 ∧
      ((generate_atoms 1 (fun _ _ => 1/2)).rows.getD i []).getD j 0 ≤ 360) :=
  ⟨le_refl 1, ⟨by norm_num, by norm_num⟩,
   coords_le_360 1 (fun _ _ => 1/2) (le_refl 1)
     (fun _ _ => ⟨by norm_num, by norm_num⟩)⟩

theorem overlap_band_wins_witness :
    50 < 200 ∧
    ((∀ i, i < 50 → 50 ≤ i + 100 → i < 100 →
       ((generate_atoms 50 (fun _ _ => 0)).rows.getD i []).getD 1 0 = 3) ∧
     (50 ≤ 100 → ∀ i, i < 50 →
       ((generate_atoms 50 (fun _ _ => 0)).rows.getD i []).getD 1 0 = 3)) :=
  ⟨by norm_num, overlap_band_wins 50 (fun _ _ => 0) (by norm_num)⟩

/-! ### Placeholder tables -/

lemma onesMatrix_length (count width : ℕ) :
    (onesMatrix count width).length = count := by
  simp [onesMatrix]

lemma onesMatrix_getD (count width i : ℕ) (h : i < count) :
    (onesMatrix count width).getD i [] = List.replicate width 1 :=
  getD_range_map _ _ _ _ h

lemma setIds_getD (m : List (List ℚ)) (i : ℕ) (h : i < m.length) :
    (setIds m).getD i [] = (m.getD i []).set 0 ((i : ℚ) + 1) :=
  getD_range_map _ _ _ _ h

/-- C2 at the notebook's own input (`size = 1200`): the first cells of row
index 1 of `bonds` and `angles` hold the identifier 2, because the
notebook writes `bonds[:,0]` and `angles[:,0]`, but it never writes
`dihedrals[:,0]`, so the corresponding cell of `dihedrals` still holds the
placeholder 1 instead of the identifier 2 the claim requires. -/
theorem dihedrals_id_unset :
    ((bonds 1200).getD 1 []).getD 0 0 = 2 ∧
    ((angles 1200).getD 1 []).getD 0 0 = 2 ∧
    ((dihedrals 1200).getD 1 []).getD 0 0 = 1 ∧ (1 : ℚ) ≠ 2 := by
  have h1200 : (1:ℕ) < 1200 := by norm_num
  refine ⟨?_, ?_, ?_, by norm_num⟩
  · rw [bonds, setIds_getD _ 1 (by rw [onesMatrix_length]; norm_num),
      onesMatrix_getD _ _ _ h1200]
    show ((1:ℕ):ℚ) + 1 = 2
    norm_num
  · rw [angles, setIds_getD _ 1 (by rw [onesMatrix_length]; norm_num),
      onesMatrix_getD _ _ _ h1200]
    show ((1:ℕ):ℚ) + 1 = 2
    norm_num
  · rw [dihedrals, onesMatrix_getD _ _ _ h1200]
    rfl

/-- The spec-modelled generator honours the claim: every cell equals 1
except the first column, which is `1, 2, ..., count`. -/
theorem generate_placeholder_table_spec (count width i j : ℕ)
    (hi : i < count) (hj : j < width) :
    ((generate_placeholder_table count width).getD i []).getD j 0
      = if j = 0 then (i : ℚ) + 1 else 1 := by
  rw [generate_placeholder_table, setIds_getD _ i (by rw [onesMatrix_length]; omega),
    onesMatrix_getD _ _ _ hi]
  rcases Nat.eq_zero_or_pos j with rfl | hpos
  · have hw : 0 < width := hj
    rw [if_pos rfl]
    cases width with
    | zero => omega
    | succ w => rfl
  · rw [if_neg (by omega)]
    rw [List.getD_eq_getElem?_getD, List.getElem?_set_ne (by omega)]
    simp [List.getElem?_replicate, hj]

theorem generate_placeholder_table_spec_witness :
    (1 : ℕ) < 3 ∧ (0 : ℕ) < 4 ∧
    ((generate_placeholder_table 3 4).getD 1 []).getD 0 0
      = if (0:ℕ) = 0 then (1 : ℚ) + 1 else 1 :=
  ⟨by norm_num, by norm_num,
   generate_placeholder_table_spec 3 4 1 0 (by norm_num) (by norm_num)⟩

/-! ### Column aggregation -/

lemma foldl_max_bounds (a : ℚ) (l : List ℚ) :
    a ≤ l.foldl max a ∧ ∀ x ∈ l, x ≤ l.foldl max a := by
  induction l generalizing a with
  | nil => exact ⟨le_refl a, by simp⟩
  | cons b l ih =>
    simp only [List.foldl_cons]
    refine ⟨le_trans (le_max_left a b) (ih (max a b)).1, ?_⟩
    intro x hx
    rcases List.mem_cons.mp hx with rfl | h
    · exact le_trans (le_max_right a x) (ih (max a x)).1
    · exact (ih (max a b)).2 x h

lemma foldl_min_bounds (a : ℚ) (l : List ℚ) :
    l.foldl min a ≤ a ∧ ∀ x ∈ l, l.foldl min a ≤ x := by
  induction l generalizing a with
  | nil => exact ⟨le_refl a, by simp⟩
  | cons b l ih =>
    simp only [List.foldl_cons]
    refine ⟨le_trans (ih (min a b)).1 (min_le_left a b), ?_⟩
    intro x hx
    rcases List.mem_cons.mp hx with rfl | h
    · exact le_trans (ih (min a x)).1 (min_le_right a x)
    · exact (ih (min a b)).2 x h

lemma colMaxVal_bound (c : List ℚ) (hne : c ≠ []) :
    ∃ v, colMaxVal c = some v ∧ ∀ x ∈ c, x ≤ v := by
  cases c with
  | nil => exact absurd rfl hne
  | cons x xs =>
    refine ⟨xs.foldl max x, rfl, ?_⟩
    intro y hy
    rcases List.mem_cons.mp hy with rfl | h
    · exact (foldl_max_bounds y xs).1
    · exact (foldl_max_bounds x xs).2 y h

lemma colMinVal_bound (c : List ℚ) (hne : c ≠ []) :
    ∃ v, colMinVal c = some v ∧ ∀ x ∈ c, v ≤ x := by
  cases c with
  | nil => exact absurd rfl hne
  | cons x xs =>
    refine ⟨xs.foldl min x, rfl, ?_⟩
    intro y hy
    rcases List.mem_cons.mp hy with rfl | h
    · exact (foldl_min_bounds y xs).1
    · exact (foldl_min_bounds x xs).2 y h

lemma getColumn_of_mem (t : Table) (n : String) (hn : n ∈ t.header) :
    getColumn t n
      = some (t.rows.map (fun row => row.getD (t.header.indexOf n) 0)) := by
  rw [getColumn, if_pos hn]

lemma bind_colMaxVal_bound (t : Table) (n : String) (hn : n ∈ t.header)
    (hne : t.rows ≠ []) :
    ∃ v, (getColumn t n).bind colMaxVal = some v ∧
      ∀ row ∈ t.rows, row.getD (t.header.indexOf n) 0 ≤ v := by
  obtain ⟨v, hv, hb⟩ := colMaxVal_bound
    (t.rows.map (fun row => row.getD (t.header.indexOf n) 0))
    (by simpa using hne)
  refine ⟨v, ?_, ?_⟩
  · rw [getColumn_of_mem t n hn, Option.some_bind, hv]
  · intro row hrow
    exact hb _ (List.mem_map_of_mem _ hrow)

lemma bind_colMinVal_bound (t : Table) (n : String) (hn : n ∈ t.header)
    (hne : t.rows ≠ []) :
    ∃ v, (getColumn t n).bind colMinVal = some v ∧
      ∀ row ∈ t.rows, v ≤ row.getD (t.header.indexOf n) 0 := by
  obtain ⟨v, hv, hb⟩ := colMinVal_bound
    (t.rows.map (fun row => row.getD (t.header.indexOf n) 0))
    (by simpa using hne)
  refine ⟨v, ?_, ?_⟩
  · rw [getColumn_of_mem t n hn, Option.some_bind, hv]
  · intro row hrow
    exact hb _ (List.mem_map_of_mem _ hrow)

/-- C4: on a table with at least one row, requesting existing column names
gives `column_max` and `column_min` results with one value per requested
name, in request order, and for every row the cell of the `i`-th requested
column is at most the `i`-th maximum and at least the `i`-th minimum. -/
theorem column_max_min_bounds (t : Table) (ns : List String)
    (hex : ∀ n ∈ ns, n ∈ t.header) (hne : t.rows ≠ []) :
    ∃ maxs mins,
      column_max t ns = some maxs ∧ column_min t ns = some mins ∧
      maxs.length = ns.length ∧ mins.length = ns.length ∧
      ∀ i, i < ns.length → ∀ row ∈ t.rows,
        row.getD (t.header.indexOf (ns.getD i "")) 0 ≤ maxs.getD i 0 ∧
        mins.getD i 0 ≤ row.getD (t.header.indexOf (ns.getD i "")) 0 := by
  induction ns with
  | nil =>
    exact ⟨[], [], rfl, rfl, rfl, rfl, fun i hi => absurd hi (by simp)⟩
  | cons n ns ih =>
    obtain ⟨maxs, mins, hmax, hmin, hlmax, hlmin, hbound⟩ :=
      ih (fun m hm => hex m (List.mem_cons_of_mem n hm))
    obtain ⟨v, hv, hvb⟩ :=
      bind_colMaxVal_bound t n (hex n (List.mem_cons_self n ns)) hne
    obtain ⟨w, hw, hwb⟩ :=
      bind_colMinVal_bound t n (hex n (List.mem_cons_self n ns)) hne
    refine ⟨v :: maxs, w :: mins, ?_, ?_, by simp [hlmax], by simp [hlmin], ?_⟩
    · rw [column_max, hv, Option.some_bind, hmax, Option.some_bind]
    · rw [column_min, hw, Option.some_bind, hmin, Option.some_bind]
    · intro i hi row hrow
      cases i with
      | zero =>
        simp only [List.getD_cons_zero]
        exact ⟨hvb row hrow, hwb row hrow⟩
      | succ k =>
        simp only [List.getD_cons_succ]
        exact hbound k (by simpa using hi) row hrow

theorem column_max_min_bounds_witness :
    (∀ n ∈ ["a"], n ∈ (Table.mk ["a", "b"] [[1, 5], [3, 2]]).header) ∧
    (Table.mk ["a", "b"] [[1, 5], [3, 2]]).rows ≠ [] ∧
    (∃ maxs mins,
      column_max (Table.mk ["a", "b"] [[1, 5], [3, 2]]) ["a"] = some maxs ∧
      column_min (Table.mk ["a", "b"] [[1, 5], [3, 2]]) ["a"] = some mins ∧
      maxs.length = ["a"].length ∧ mins.length = ["a"].length ∧
      ∀ i, i < ["a"].length →
        ∀ row ∈ (Table.mk ["a", "b"] [[1, 5], [3, 2]]).rows,
        row.getD ((Table.mk ["a", "b"] [[1, 5], [3, 2]]).header.indexOf
          (["a"].getD i "")) 0 ≤ maxs.getD i 0 ∧
        mins.getD i 0 ≤ row.getD
          ((Table.mk ["a", "b"] [[1, 5], [3, 2]]).header.indexOf
            (["a"].getD i "")) 0) :=
  ⟨by decide, by simp,
   column_max_min_bounds (Table.mk ["a", "b"] [[1, 5], [3, 2]]) ["a"]
     (by decide) (by simp)⟩

/-- C5: requesting `column_max` with a list of names containing one absent
from the table's header yields `none`: no value is produced for any of the
requested columns. -/
theorem column_max_missing_column (t : Table) (ns : List String)
    (n : String) (hn : n ∈ ns) (habs : n ∉ t.header) :
    column_max t ns = none := by
  induction ns with
  | nil => cases hn
  | cons m ns ih =>
    rcases List.mem_cons.mp hn with rfl | h
    · have hnone : getColumn t n = none := by rw [getColumn, if_neg habs]
      rw [column_max, hnone]
      rfl
    · rw [column_max, ih h]
      cases (getColumn t m).bind colMaxVal <;> rfl

theorem column_max_missing_column_witness :
    ("zz" ∈ ["zz"] ∧ "zz" ∉ (Table.mk ["a"] [[1]]).header) ∧
    column_max (Table.mk ["a"] [[1]]) ["zz"] = none :=
  ⟨⟨by decide, by decide⟩,
   column_max_missing_column (Table.mk ["a"] [[1]]) ["zz"] "zz"
     (by decide) (by decide)⟩

end Lammps
